import Mathlib

/-!
Shallow embedding of `redislock.go` (dineshgowda24/redislock).

Durations (`time.Duration`) are modelled as `Int` nanoseconds;
`time.Millisecond = 1000000` nanoseconds.  Go strings are modelled as
`List Char` (one `Char` per byte; all values involved are ASCII).
Errors are opaque `Nat` codes.  The retry strategies are stateful Go
objects; they are modelled as an inductive type of states with
`NextBackoff : RetryStrategy → Int × RetryStrategy` returning the
duration and the successor state, mirroring each Go method body.
-/

namespace Redislock

/-- `time.Millisecond` in nanoseconds, as used by `time.Duration`. -/
def millisecond : Int := 1000000

/-- States of the Go `RetryStrategy` implementations in `redislock.go`:
`linearBackoff` (an immutable duration), `limitedRetry` (inner strategy,
`cnt` and `max` counters, Go `int`), and `exponentialBackoff` (a `uint`
call counter and the `min`/`max` durations). -/
inductive RetryStrategy where
  | linearBackoff (d : Int)
  | limitedRetry (s : RetryStrategy) (cnt mx : Int)
  | exponentialBackoff (cnt : Nat) (mn mx : Int)
deriving Repr, DecidableEq

/-- `LinearBackoff(backoff)` constructor from `redislock.go`. -/
def LinearBackoff (d : Int) : RetryStrategy := .linearBackoff d

/-- `NoRetry()` from `redislock.go`: `linearBackoff(0)`. -/
def NoRetry : RetryStrategy := .linearBackoff 0

/-- `LimitRetry(s, max)` from `redislock.go`: `&limitedRetry{s: s, max: max}`
(the `cnt` field starts at its zero value). -/
def LimitRetry (s : RetryStrategy) (mx : Int) : RetryStrategy :=
  .limitedRetry s 0 mx

/-- `ExponentialBackoff(min, max)` from `redislock.go`:
`&exponentialBackoff{min: min, max: max}` (the `cnt` field starts at 0). -/
def ExponentialBackoff (mn mx : Int) : RetryStrategy :=
  .exponentialBackoff 0 mn mx

/-- The three `NextBackoff` method bodies from `redislock.go`, returning the
duration together with the mutated receiver.

* `linearBackoff.NextBackoff`: `return time.Duration(r)`.
* `limitedRetry.NextBackoff`: `if r.cnt >= r.max { return 0 }; r.cnt++;
  return r.s.NextBackoff()`.
* `exponentialBackoff.NextBackoff`: `r.cnt++; ms := 2 << 25;
  if r.cnt < 25 { ms = 2 << r.cnt }; then clamp
  `time.Duration(ms) * time.Millisecond` against `r.min` and `r.max`.
  The shifts stay below `2^26`, far from Go `int` overflow, so `Nat`
  shifts model them exactly. -/
def NextBackoff : RetryStrategy → Int × RetryStrategy
  | .linearBackoff d => (d, .linearBackoff d)
  | .limitedRetry s cnt mx =>
      if cnt ≥ mx then (0, .limitedRetry s cnt mx)
      else ((NextBackoff s).1, .limitedRetry (NextBackoff s).2 (cnt + 1) mx)
  | .exponentialBackoff cnt mn mx =>
      let cnt1 := cnt + 1
      let ms : Nat := if cnt1 < 25 then 2 <<< cnt1 else 2 <<< 25
      let d : Int := (ms : Int) * millisecond
      (if d < mn then mn else if mx ≠ 0 ∧ d > mx then mx else d,
       .exponentialBackoff cnt1 mn mx)

/-- Duration returned by the `(n+1)`-st successive call to `NextBackoff`
starting from state `r` (so `nthBackoff r 0` is the first call). -/
def nthBackoff : RetryStrategy → Nat → Int
  | r, 0 => (NextBackoff r).1
  | r, n + 1 => nthBackoff (NextBackoff r).2 n

/-- Outcome of one `SetNX` round trip inside the `Obtain` loop:
a transport error, a successful set, or contention (`false, nil`). -/
inductive SetNXRes where
  | err (e : Nat)
  | ok
  | contended
deriving Repr, DecidableEq

/-- Environment of one iteration of the `Obtain` loop: the value of
`time.Now()` at the loop-condition check, the outcome of the `SetNX`
round trip, and whether the cancellation context completed during the
backoff wait of this iteration (before the timer fired). -/
structure IterEnv where
  now : Int
  setnx : SetNXRes
  ctxDone : Bool
deriving Repr, DecidableEq

/-- Results `Client.Obtain` can produce: a lock bound to `value`, the
`ErrNotObtained` sentinel, an unwrapped store/random-source error,
`ctx.Err()`, or exhaustion of the (finite) environment trace before the
Go loop would have stopped. -/
inductive ObtainResult where
  | obtained (value : List Char)
  | notObtained
  | err (e : Nat)
  | ctxErr
  | outOfTrace
deriving Repr, DecidableEq

/-- The `for` loop of `Client.Obtain` in `redislock.go`, driven by the
environment trace `env`.  `value` is the fixed `token + metadata` string
computed before the loop, `deadline` is `time.Now().Add(ttl)` computed at
loop start.  Each iteration: check `time.Now().Before(deadline)`; on
failure return `ErrNotObtained`.  Otherwise issue `SetNX`: a store error
is returned unwrapped, success returns the lock, contention asks the
strategy for a backoff — `if backoff < 1 { break }` (yielding
`ErrNotObtained`), then the `select` over `ctx.Done()` and the timer.
The second component is the log of `SetNX` attempts as
`(now, value)` pairs, in order. -/
def obtainLoop (value : List Char) (deadline : Int) :
    RetryStrategy → List IterEnv → ObtainResult × List (Int × List Char)
  | _, [] => (.outOfTrace, [])
  | r, e :: rest =>
    if e.now < deadline then
      match e.setnx with
      | .err c => (.err c, [(e.now, value)])
      | .ok => (.obtained value, [(e.now, value)])
      | .contended =>
        if (NextBackoff r).1 < 1 then
          (.notObtained, [(e.now, value)])
        else if e.ctxDone then
          (.ctxErr, [(e.now, value)])
        else
          ((obtainLoop value deadline (NextBackoff r).2 rest).1,
           (e.now, value) :: (obtainLoop value deadline (NextBackoff r).2 rest).2)
    else (.notObtained, [])

/-- `Client.Obtain(key, ttl, opt)` from `redislock.go`.  `tokenRes` is the
result of the single `c.randomToken()` call made before the loop; on error
it is returned immediately.  Otherwise `value := token + opt.getMetadata()`
and the loop runs against `deadline := t0 + ttl`, where `t0` is the
`time.Now()` of `time.Now().Add(ttl)`. -/
def Obtain (tokenRes : Except Nat (List Char)) (meta : List Char)
    (t0 ttl : Int) (r : RetryStrategy) (env : List IterEnv) :
    ObtainResult × List (Int × List Char) :=
  match tokenRes with
  | .error e => (.err e, [])
  | .ok token => obtainLoop (token ++ meta) (t0 + ttl) r env

/-- `Lock.Token()` from `redislock.go`: `l.value[:22]` (byte slicing;
`List.take` models it on in-range values). -/
def Lock.Token (value : List Char) : List Char := value.take 22

/-- `Lock.Metadata()` from `redislock.go`: `l.value[22:]`. -/
def Lock.Metadata (value : List Char) : List Char := value.drop 22

/-- `Lock.TTL()` from `redislock.go`, as a function of the store's
`TTL(key, value)` response: a store error is returned with zero duration;
a positive millisecond count is converted via
`time.Duration(res) * time.Millisecond`; any other value yields
`(0, nil)`. -/
def Lock.TTL (res : Except Nat Int) : Int × Option Nat :=
  match res with
  | .error e => (0, some e)
  | .ok r => if r > 0 then (r * millisecond, none) else (0, none)

/-- Character of the URL-safe base64 alphabet at index `n < 64`
(`A-Z`, `a-z`, `0-9`, `-`, `_`), modelling Go's
`encoding/base64` `RawURLEncoding` alphabet. -/
def b64urlChar (n : Nat) : Char :=
  if n < 26 then Char.ofNat (65 + n)
  else if n < 52 then Char.ofNat (97 + (n - 26))
  else if n < 62 then Char.ofNat (48 + (n - 52))
  else if n = 62 then '-'
  else '_'

/-- Unpadded URL-safe base64 of a byte sequence, modelling
`base64.RawURLEncoding.EncodeToString` as used by `Client.randomToken`:
each 3-byte group yields 4 characters; a trailing 2-byte group yields 3;
a trailing single byte yields 2; no padding. -/
def b64RawURL : List Nat → List Char
  | a :: b :: c :: rest =>
      b64urlChar ((a * 65536 + b * 256 + c) / 262144) ::
      b64urlChar ((a * 65536 + b * 256 + c) / 4096 % 64) ::
      b64urlChar ((a * 65536 + b * 256 + c) / 64 % 64) ::
      b64urlChar ((a * 65536 + b * 256 + c) % 64) ::
      b64RawURL rest
  | [a, b] => [b64urlChar (a / 4), b64urlChar (a % 4 * 16 + b / 16),
               b64urlChar (b % 16 * 4)]
  | [a] => [b64urlChar (a / 4), b64urlChar (a % 4 * 16)]
  | [] => []

/-- `Client.randomToken()` on a successful random fill of the 16-byte
scratch buffer: the unpadded URL-safe base64 of those bytes. -/
def randomToken (bytes : List Nat) : List Char := b64RawURL bytes

/-! ## Helper lemmas -/

theorem nextBackoff_exponential_snd (c : Nat) (mn mx : Int) :
    (NextBackoff (.exponentialBackoff c mn mx)).2 = .exponentialBackoff (c + 1) mn mx := by
  simp [NextBackoff]

theorem nextBackoff_exponential_fst (c : Nat) (mn mx : Int) :
    (NextBackoff (.exponentialBackoff c mn mx)).1 =
      (if ((2 * 2 ^ Nat.min (c + 1) 25 : Nat) : Int) * millisecond < mn then mn
       else if mx ≠ 0 ∧ ((2 * 2 ^ Nat.min (c + 1) 25 : Nat) : Int) * millisecond > mx then mx
       else ((2 * 2 ^ Nat.min (c + 1) 25 : Nat) : Int) * millisecond) := by
  have hms : (if c + 1 < 25 then 2 <<< (c + 1) else 2 <<< 25) =
      2 * 2 ^ Nat.min (c + 1) 25 := by
    by_cases h : c + 1 < 25
    · simp [h, Nat.shiftLeft_eq, Nat.min_eq_left (Nat.le_of_lt h)]
    · simp [h, Nat.shiftLeft_eq, Nat.min_eq_right (Nat.le_of_not_lt h)]
  simp only [NextBackoff, hms]

theorem nthBackoff_exponential (mn mx : Int) :
    ∀ (n c : Nat), nthBackoff (.exponentialBackoff c mn mx) n =
      (NextBackoff (.exponentialBackoff (c + n) mn mx)).1 := by
  intro n
  induction n with
  | zero => intro c; simp [nthBackoff]
  | succ k ih =>
    intro c
    rw [nthBackoff, nextBackoff_exponential_snd, ih]
    have : c + 1 + k = c + (k + 1) := by omega
    rw [this]

/-- C3: the `n`-th call (`n = m + 1 ≥ 1`) to `NextBackoff` on an
`ExponentialBackoff(min, max)` instance returns `2 * 2^min(n,25)`
milliseconds clamped into `[min, max]`: below `min` gives `min`; if `max`
is nonzero and the value exceeds `max` the result is `max`; otherwise the
computed value (`max = 0` means no upper clamp). -/
theorem exponentialBackoff_nth (mn mx : Int) (m : Nat) :
    nthBackoff (ExponentialBackoff mn mx) m =
      (if ((2 * 2 ^ Nat.min (m + 1) 25 : Nat) : Int) * millisecond < mn then mn
       else if mx ≠ 0 ∧ ((2 * 2 ^ Nat.min (m + 1) 25 : Nat) : Int) * millisecond > mx then mx
       else ((2 * 2 ^ Nat.min (m + 1) 25 : Nat) : Int) * millisecond) := by
  rw [ExponentialBackoff, nthBackoff_exponential, nextBackoff_exponential_fst]
  simp

theorem limitedRetry_delegate (mx : Int) :
    ∀ (n : Nat) (s : RetryStrategy) (cnt : Int), cnt + n < mx →
      nthBackoff (.limitedRetry s cnt mx) n = nthBackoff s n := by
  intro n
  induction n with
  | zero =>
    intro s cnt h
    have hlt : ¬ cnt ≥ mx := by omega
    simp [nthBackoff, NextBackoff, hlt]
  | succ k ih =>
    intro s cnt h
    have hlt : ¬ cnt ≥ mx := by omega
    rw [nthBackoff, nthBackoff]
    simp only [NextBackoff, hlt, if_false]
    exact ih (NextBackoff s).2 (cnt + 1) (by omega)

theorem limitedRetry_exhausted (mx : Int) :
    ∀ (n : Nat) (s : RetryStrategy) (cnt : Int), mx ≤ cnt + n →
      nthBackoff (.limitedRetry s cnt mx) n = 0 := by
  intro n
  induction n with
  | zero =>
    intro s cnt h
    have hge : cnt ≥ mx := by omega
    simp [nthBackoff, NextBackoff, hge]
  | succ k ih =>
    intro s cnt h
    by_cases hge : cnt ≥ mx
    · rw [nthBackoff]
      simp only [NextBackoff, hge, if_true]
      exact ih s cnt (by omega)
    · rw [nthBackoff]
      simp only [NextBackoff, hge, if_false]
      exact ih (NextBackoff s).2 (cnt + 1) (by omega)

/-- C4: `LimitRetry(s, max)` delegates `NextBackoff` to `s` for the first
`max` calls and returns zero on every subsequent call regardless of what
`s` would produce; in particular `LimitRetry(LinearBackoff(10ms), 3)`
returns `10ms, 10ms, 10ms, 0` on four successive calls. -/
theorem limitRetry_nthBackoff (s : RetryStrategy) (mx : Int) (n : Nat) :
    ((n : Int) < mx → nthBackoff (LimitRetry s mx) n = nthBackoff s n)
    ∧ (mx ≤ (n : Int) → nthBackoff (LimitRetry s mx) n = 0)
    ∧ (nthBackoff (LimitRetry (LinearBackoff (10 * millisecond)) 3) 0 = 10 * millisecond
       ∧ nthBackoff (LimitRetry (LinearBackoff (10 * millisecond)) 3) 1 = 10 * millisecond
       ∧ nthBackoff (LimitRetry (LinearBackoff (10 * millisecond)) 3) 2 = 10 * millisecond
       ∧ nthBackoff (LimitRetry (LinearBackoff (10 * millisecond)) 3) 3 = 0) := by
  refine ⟨fun h => ?_, fun h => ?_, by decide⟩
  · exact limitedRetry_delegate mx n s 0 (by omega)
  · exact limitedRetry_exhausted mx n s 0 (by omega)

/-- Witness for C4 at concrete inputs: one delegated call and one
exhausted call of `LimitRetry(LinearBackoff 7, 2)`. -/
theorem limitRetry_nthBackoff_witness :
    nthBackoff (LimitRetry (LinearBackoff 7) 2) 1 = 7
    ∧ nthBackoff (LimitRetry (LinearBackoff 7) 2) 5 = 0 :=
  ⟨((limitRetry_nthBackoff (LinearBackoff 7) 2 1).1 (by decide)).trans (by decide),
   (limitRetry_nthBackoff (LinearBackoff 7) 2 5).2.1 (by decide)⟩

theorem obtainLoop_log (value : List Char) (dl : Int) :
    ∀ (env : List IterEnv) (r : RetryStrategy) (p : Int × List Char),
      p ∈ (obtainLoop value dl r env).2 → p.1 < dl ∧ p.2 = value := by
  intro env
  induction env with
  | nil =>
    intro r p hp
    simp [obtainLoop] at hp
  | cons e rest ih =>
    intro r p hp
    simp only [obtainLoop] at hp
    by_cases h : e.now < dl
    · rw [if_pos h] at hp
      cases hsx : e.setnx with
      | err c =>
        simp only [hsx] at hp
        simp at hp
        subst hp
        exact ⟨h, rfl⟩
      | ok =>
        simp only [hsx] at hp
        simp at hp
        subst hp
        exact ⟨h, rfl⟩
      | contended =>
        simp only [hsx] at hp
        by_cases hb : (NextBackoff r).1 < 1
        · rw [if_pos hb] at hp
          simp at hp
          subst hp
          exact ⟨h, rfl⟩
        · rw [if_neg hb] at hp
          by_cases hc : e.ctxDone = true
          · rw [if_pos hc] at hp
            simp at hp
            subst hp
            exact ⟨h, rfl⟩
          · rw [if_neg hc] at hp
            simp only [List.mem_cons] at hp
            rcases hp with hp | hp
            · subst hp
              exact ⟨h, rfl⟩
            · exact ih (NextBackoff r).2 p hp
    · rw [if_neg h] at hp
      simp at hp

theorem obtainLoop_obtained (value : List Char) (dl : Int) :
    ∀ (env : List IterEnv) (r : RetryStrategy) (v : List Char),
      (obtainLoop value dl r env).1 = .obtained v → v = value := by
  intro env
  induction env with
  | nil =>
    intro r v hv
    simp [obtainLoop] at hv
  | cons e rest ih =>
    intro r v hv
    simp only [obtainLoop] at hv
    by_cases h : e.now < dl
    · rw [if_pos h] at hv
      cases hsx : e.setnx with
      | err c =>
        simp only [hsx] at hv
        simp at hv
      | ok =>
        simp only [hsx] at hv
        simp at hv
        exact hv.symm
      | contended =>
        simp only [hsx] at hv
        by_cases hb : (NextBackoff r).1 < 1
        · rw [if_pos hb] at hv
          simp at hv
        · rw [if_neg hb] at hv
          by_cases hc : e.ctxDone = true
          · rw [if_pos hc] at hv
            simp at hv
          · rw [if_neg hc] at hv
            exact ih (NextBackoff r).2 v hv
    · rw [if_neg h] at hv
      simp at hv

/-- C2: every `SetNX` attempt of `Obtain(key, ttl, opt)` is issued at a
time strictly before the deadline `t0 + ttl` measured at loop start; if
the deadline has passed at the loop-condition check no attempt is made and
`Obtain` returns `ErrNotObtained`; in particular for a non-positive `ttl`
(with the clock monotone from `t0`) no attempt is made at all. -/
theorem obtain_deadline (token meta : List Char) (t0 ttl : Int)
    (r : RetryStrategy) (env : List IterEnv) :
    (∀ p ∈ (Obtain (.ok token) meta t0 ttl r env).2, p.1 < t0 + ttl)
    ∧ (∀ e rest, env = e :: rest → t0 + ttl ≤ e.now →
        Obtain (.ok token) meta t0 ttl r env = (.notObtained, []))
    ∧ (ttl ≤ 0 → (∀ e ∈ env, t0 ≤ e.now) →
        (Obtain (.ok token) meta t0 ttl r env).2 = []
        ∧ ∀ e rest, env = e :: rest →
            (Obtain (.ok token) meta t0 ttl r env).1 = .notObtained) := by
  have hnotlt : ∀ (e : IterEnv) rest, env = e :: rest → t0 + ttl ≤ e.now →
      Obtain (.ok token) meta t0 ttl r env = (.notObtained, []) := by
    intro e rest henv hle
    subst henv
    simp only [Obtain, obtainLoop]
    rw [if_neg (by omega)]
  refine ⟨?_, hnotlt, ?_⟩
  · intro p hp
    exact (obtainLoop_log (token ++ meta) (t0 + ttl) env r p hp).1
  · intro httl hmono
    cases env with
    | nil =>
      simp [Obtain, obtainLoop]
    | cons e rest =>
      have hle : t0 + ttl ≤ e.now := by
        have := hmono e (by simp)
        omega
      rw [hnotlt e rest rfl hle]
      exact ⟨rfl, fun _ _ _ => rfl⟩

/-- Witness for C2: with `ttl = -5` and a monotone clock the single-entry
environment yields `ErrNotObtained` with no `SetNX` attempt. -/
theorem obtain_deadline_witness :
    Obtain (.ok ['T']) [] 0 (-5) (LinearBackoff 1)
      [⟨3, .ok, false⟩] = (.notObtained, []) :=
  (obtain_deadline ['T'] [] 0 (-5) (LinearBackoff 1)
    [⟨3, .ok, false⟩]).2.1 ⟨3, .ok, false⟩ [] rfl (by decide)

/-- C5: if the cancellation context completes while the loop waits out a
(positive) backoff interval after a contended attempt, the loop returns
`ctx.Err()` (not `ErrNotObtained`) and performs no further `SetNX`
attempts: the log ends at this attempt and the rest of the trace is
unused. -/
theorem obtain_ctx_cancel (value : List Char) (dl : Int) (r : RetryStrategy)
    (e : IterEnv) (rest : List IterEnv)
    (h1 : e.now < dl) (h2 : e.setnx = .contended)
    (h3 : 1 ≤ (NextBackoff r).1) (h4 : e.ctxDone = true) :
    obtainLoop value dl r (e :: rest) = (.ctxErr, [(e.now, value)]) := by
  have hb : ¬ (NextBackoff r).1 < 1 := by omega
  simp only [obtainLoop, h2]
  rw [if_pos h1, if_neg hb, if_pos h4]

/-- Witness for C5 at a concrete contended iteration with the context
completed during the wait. -/
theorem obtain_ctx_cancel_witness :
    obtainLoop ['T'] 10 (LinearBackoff 5)
      [⟨0, .contended, true⟩, ⟨1, .ok, false⟩]
      = (.ctxErr, [(0, ['T'])]) :=
  obtain_ctx_cancel ['T'] 10 (LinearBackoff 5) ⟨0, .contended, true⟩
    [⟨1, .ok, false⟩] (by decide) rfl (by decide) rfl

/-- C6: if a contended attempt is followed by a non-positive
`NextBackoff`, the loop stops immediately: no further `SetNX` attempt is
made (the rest of the trace is unused) and `ErrNotObtained` is
returned. -/
theorem obtain_nonpositive_backoff (value : List Char) (dl : Int)
    (r : RetryStrategy) (e : IterEnv) (rest : List IterEnv)
    (h1 : e.now < dl) (h2 : e.setnx = .contended)
    (h3 : (NextBackoff r).1 ≤ 0) :
    obtainLoop value dl r (e :: rest) = (.notObtained, [(e.now, value)]) := by
  have hb : (NextBackoff r).1 < 1 := by omega
  simp only [obtainLoop, h2]
  rw [if_pos h1, if_pos hb]

/-- Witness for C6: `NoRetry` returns backoff `0`, so one contended
attempt ends the loop with `ErrNotObtained`. -/
theorem obtain_nonpositive_backoff_witness :
    obtainLoop ['T'] 10 NoRetry [⟨0, .contended, false⟩, ⟨1, .ok, false⟩]
      = (.notObtained, [(0, ['T'])]) :=
  obtain_nonpositive_backoff ['T'] 10 NoRetry ⟨0, .contended, false⟩
    [⟨1, .ok, false⟩] (by decide) rfl (by decide)

/-- C9: an error from the random-token source is returned immediately
with no `SetNX` attempt, and an error from `SetNX` itself is returned
unwrapped at once: the loop does not continue (the rest of the trace is
unused), so only a contended attempt (`false, nil`) ever reaches the
backoff path. -/
theorem obtain_error_immediate :
    (∀ (ec : Nat) (meta : List Char) (t0 ttl : Int) (r : RetryStrategy)
        (env : List IterEnv),
        Obtain (.error ec) meta t0 ttl r env = (.err ec, []))
    ∧ (∀ (value : List Char) (dl : Int) (r : RetryStrategy) (e : IterEnv)
        (rest : List IterEnv) (ec : Nat), e.now < dl → e.setnx = .err ec →
        obtainLoop value dl r (e :: rest) = (.err ec, [(e.now, value)])) := by
  constructor
  · intro ec meta t0 ttl r env
    rfl
  · intro value dl r e rest ec h1 h2
    simp only [obtainLoop, h2]
    rw [if_pos h1]

/-- Witness for C9: a concrete token-source error and a concrete `SetNX`
error, each ending the call at once. -/
theorem obtain_error_immediate_witness :
    Obtain (.error 7) [] 0 100 (LinearBackoff 1) [⟨0, .ok, false⟩]
        = (.err 7, [])
    ∧ obtainLoop ['T'] 10 (LinearBackoff 1)
        [⟨0, .err 9, false⟩, ⟨1, .ok, false⟩] = (.err 9, [(0, ['T'])]) :=
  ⟨obtain_error_immediate.1 7 [] 0 100 (LinearBackoff 1) [⟨0, .ok, false⟩],
   obtain_error_immediate.2 ['T'] 10 (LinearBackoff 1) ⟨0, .err 9, false⟩
     [⟨1, .ok, false⟩] 9 (by decide) rfl⟩

/-- C1 (counterexample): the claim that two successive `SetNX` attempts
of one `Obtain` call use different token values is false: in the run
below two contended attempts are made and both carry the same value —
`Client.Obtain` calls `randomToken` once, before the loop. -/
theorem obtain_fresh_token_cex :
    ((Obtain (.ok ['T']) [] 0 100 (LinearBackoff 1)
        [⟨0, .contended, false⟩, ⟨1, .contended, false⟩]).2.map Prod.snd)
      = [['T'], ['T']]
    ∧ ¬ List.Pairwise (fun a b => a ≠ b)
        ((Obtain (.ok ['T']) [] 0 100 (LinearBackoff 1)
          [⟨0, .contended, false⟩, ⟨1, .contended, false⟩]).2.map Prod.snd) :=
  ⟨by decide, by decide⟩

/-- C1 (amended): a single random token is generated once per `Obtain`
call, before the retry loop; every `SetNX` attempt of that call — failed
attempts included — uses the same value `token + metadata`. -/
theorem obtain_single_token (token meta : List Char) (t0 ttl : Int)
    (r : RetryStrategy) (env : List IterEnv) :
    ∀ p ∈ (Obtain (.ok token) meta t0 ttl r env).2, p.2 = token ++ meta := by
  intro p hp
  exact (obtainLoop_log (token ++ meta) (t0 + ttl) env r p hp).2

/-- Witness for the amended C1 at a concrete run with one attempt. -/
theorem obtain_single_token_witness :
    ((0 : Int), ['T']).2 = ['T'] ++ ([] : List Char) :=
  obtain_single_token ['T'] [] 0 5 (LinearBackoff 1) [⟨0, .ok, false⟩]
    (0, ['T']) (by decide)

/-- C7: `Lock.TTL()` converts a positive store-reported millisecond count
to a duration; any non-positive store value (the mismatch sentinel for a
gone or stolen lock) yields zero duration and no error; a store-level
error is returned as an error with zero duration. -/
theorem lock_ttl_conversion (r : Int) (e : Nat) :
    (0 < r → Lock.TTL (.ok r) = (r * millisecond, none))
    ∧ (r ≤ 0 → Lock.TTL (.ok r) = (0, none))
    ∧ Lock.TTL (.error e) = (0, some e) := by
  refine ⟨fun h => ?_, fun h => ?_, rfl⟩
  · simp [Lock.TTL, h]
  · have hn : ¬ r > 0 := by omega
    simp [Lock.TTL, hn]

/-- Witness for C7 at concrete store responses `5` and `-2`. -/
theorem lock_ttl_conversion_witness :
    Lock.TTL (.ok 5) = (5 * millisecond, none)
    ∧ Lock.TTL (.ok (-2)) = (0, none) :=
  ⟨(lock_ttl_conversion 5 0).1 (by decide),
   (lock_ttl_conversion (-2) 0).2.1 (by decide)⟩

/-- C8: for a stored value formed as a 22-character token followed by a
metadata string, `Lock.Token()` returns exactly the token,
`Lock.Metadata()` exactly the remainder, and their concatenation is the
full stored value. -/
theorem token_metadata_roundtrip (t m : List Char) (h : t.length = 22) :
    Lock.Token (t ++ m) = t ∧ Lock.Metadata (t ++ m) = m
    ∧ Lock.Token (t ++ m) ++ Lock.Metadata (t ++ m) = t ++ m := by
  refine ⟨?_, ?_, ?_⟩
  · rw [Lock.Token, ← h, List.take_left]
  · rw [Lock.Metadata, ← h, List.drop_left]
  · rw [Lock.Token, Lock.Metadata, List.take_append_drop]

/-- Witness for C8 at a concrete 22-character token and metadata. -/
theorem token_metadata_roundtrip_witness :
    Lock.Token (List.replicate 22 'a' ++ ['x', 'y'])
        = List.replicate 22 'a'
    ∧ Lock.Metadata (List.replicate 22 'a' ++ ['x', 'y']) = ['x', 'y']
    ∧ Lock.Token (List.replicate 22 'a' ++ ['x', 'y'])
        ++ Lock.Metadata (List.replicate 22 'a' ++ ['x', 'y'])
        = List.replicate 22 'a' ++ ['x', 'y'] :=
  token_metadata_roundtrip (List.replicate 22 'a') ['x', 'y'] (by decide)

theorem b64RawURL_length :
    ∀ bs : List Nat, (b64RawURL bs).length = (8 * bs.length + 5) / 6
  | a :: b :: c :: rest => by
      simp [b64RawURL, b64RawURL_length rest]
      omega
  | [a, b] => by simp [b64RawURL]
  | [a] => by simp [b64RawURL]
  | [] => by simp [b64RawURL]

/-- C10: for a successful `Obtain` whose token came from a 16-byte random
fill, the stored value has length at least 22 and its first 22 characters
are the unpadded URL-safe base64 of those 16 bytes, which is always
exactly 22 characters — so the index-based slicing in `Lock.Token()` and
`Lock.Metadata()` stays in range. -/
theorem obtain_value_wellformed (bytes : List Nat) (meta : List Char)
    (t0 ttl : Int) (r : RetryStrategy) (env : List IterEnv) (v : List Char)
    (h16 : bytes.length = 16)
    (hob : (Obtain (.ok (randomToken bytes)) meta t0 ttl r env).1
             = .obtained v) :
    22 ≤ v.length ∧ v.take 22 = randomToken bytes
    ∧ (randomToken bytes).length = 22 := by
  have hlen : (randomToken bytes).length = 22 := by
    rw [randomToken, b64RawURL_length, h16]
  have hv : v = randomToken bytes ++ meta :=
    obtainLoop_obtained (randomToken bytes ++ meta) (t0 + ttl) env r v hob
  subst hv
  refine ⟨?_, ?_, hlen⟩
  · rw [List.length_append, hlen]
    omega
  · rw [← hlen, List.take_left]

/-- Witness for C10: a successful run on the all-zero 16-byte fill. -/
theorem obtain_value_wellformed_witness :
    22 ≤ (randomToken (List.replicate 16 0) ++ ([] : List Char)).length
    ∧ (randomToken (List.replicate 16 0) ++ ([] : List Char)).take 22
        = randomToken (List.replicate 16 0)
    ∧ (randomToken (List.replicate 16 0)).length = 22 :=
  obtain_value_wellformed (List.replicate 16 0) [] 0 1 NoRetry
    [⟨0, .ok, false⟩] (randomToken (List.replicate 16 0) ++ [])
    (by decide) (by decide)

end Redislock
